import Mathlib

/-!
Verification of the streaming-response consumer of the Mnemos chat client
(`parseSseBlock` and the `send` loop of the Vite front end).

The JavaScript source is shallowly embedded: strings are `List Char`,
byte streams are `List Nat` (each entry < 256), the browser's `JSON`
object is modelled by the `Json` inductive with an executable parser and
serializer, and the WHATWG incremental `TextDecoder` is modelled as a
byte-level state machine.  React `setMessages` updates become pure
functions on the message list; the `throw`/`catch` control flow of the
`send` function becomes an explicit result type (`DRes` / `SRes`).
-/

namespace Mnemos

/-- The characters of a string literal, used to write `List Char` constants. -/
def chars (s : String) : List Char := s.data

/-- JavaScript `String.prototype.startsWith`: `startsWithL p s` is true when
`p` is an initial segment of `s`. -/
def startsWithL : List Char → List Char → Bool
  | [], _ => true
  | _ :: _, [] => false
  | p :: ps, c :: cs => p = c && startsWithL ps cs

/-- JavaScript `String.prototype.includes`: `hasSub p s` is true when `p`
occurs contiguously inside `s`. -/
def hasSub (p : List Char) : List Char → Bool
  | [] => startsWithL p []
  | c :: rest => startsWithL p (c :: rest) || hasSub p rest

/-- Whitespace recognised by `String.prototype.trim` (restricted to the ASCII
whitespace characters; the exotic Unicode spaces never occur on this wire). -/
def isWsChar (c : Char) : Bool :=
  c = ' ' || c = '\t' || c = '\n' || c = '\r' || c = Char.ofNat 11 || c = Char.ofNat 12

/-- JavaScript `String.prototype.trim`. -/
def trimL (s : List Char) : List Char :=
  ((s.dropWhile isWsChar).reverse.dropWhile isWsChar).reverse

/-- JavaScript `split` with a one-character separator (used for `split("\n")`). -/
def splitOn1 (d : Char) : List Char → List (List Char)
  | [] => [[]]
  | c :: rest =>
    if c = d then [] :: splitOn1 d rest
    else match splitOn1 d rest with
      | [] => [[c]]
      | s :: ss => (c :: s) :: ss

/-- Prepend a character to the first segment of a split result. -/
def consHead (c : Char) : List (List Char) → List (List Char)
  | [] => [[c]]
  | s :: ss => (c :: s) :: ss

/-- JavaScript `split` with a two-character separator, scanning leftmost and
non-overlapping (used for the frame delimiter `split("\n\n")`). -/
def splitOn2 (d₁ d₂ : Char) : List Char → List (List Char)
  | [] => [[]]
  | [c] => [[c]]
  | c₁ :: c₂ :: rest =>
    if c₁ = d₁ ∧ c₂ = d₂ then [] :: splitOn2 d₁ d₂ rest
    else consHead c₁ (splitOn2 d₁ d₂ (c₂ :: rest))

/-- JavaScript `Array.prototype.join("\n")`. -/
def joinNl : List (List Char) → List Char
  | [] => []
  | [d] => d
  | d :: rest => d ++ '\n' :: joinNl rest

/-! ## The JSON value model

The payloads on the wire are produced by `JSON.parse` and consumed through
JavaScript property access, truthiness tests and string coercion.  Numbers
are modelled as integers: the frames of this protocol never carry
fractional numbers, and floating point is outside the scope of the model. -/

inductive Json where
  | null : Json
  | bool (b : Bool) : Json
  | num (n : Int) : Json
  | str (s : List Char) : Json
  | arr (xs : List Json) : Json
  | obj (kvs : List (List Char × Json)) : Json

/-- Whitespace skipped by `JSON.parse`. -/
def skipWs : List Char → List Char
  | [] => []
  | c :: rest =>
    if c = ' ' || c = '\t' || c = '\n' || c = '\r' then skipWs rest
    else c :: rest

/-- Decode one hexadecimal digit. -/
def hexDigit (c : Char) : Option Nat :=
  if '0' ≤ c ∧ c ≤ '9' then some (c.toNat - '0'.toNat)
  else if 'a' ≤ c ∧ c ≤ 'f' then some (c.toNat - 'a'.toNat + 10)
  else if 'A' ≤ c ∧ c ≤ 'F' then some (c.toNat - 'A'.toNat + 10)
  else none

/-- Body of a JSON string literal, after the opening quote.  Returns the
decoded characters and the remainder after the closing quote. -/
def parseStringBody : List Char → Option (List Char × List Char)
  | [] => none
  | '"' :: r => some ([], r)
  | '\\' :: e :: r2 =>
    match e, r2 with
    | '"', r2 => (parseStringBody r2).map (fun p => ('"' :: p.1, p.2))
    | '\\', r2 => (parseStringBody r2).map (fun p => ('\\' :: p.1, p.2))
    | '/', r2 => (parseStringBody r2).map (fun p => ('/' :: p.1, p.2))
    | 'n', r2 => (parseStringBody r2).map (fun p => ('\n' :: p.1, p.2))
    | 't', r2 => (parseStringBody r2).map (fun p => ('\t' :: p.1, p.2))
    | 'r', r2 => (parseStringBody r2).map (fun p => ('\r' :: p.1, p.2))
    | 'b', r2 => (parseStringBody r2).map (fun p => (Char.ofNat 8 :: p.1, p.2))
    | 'f', r2 => (parseStringBody r2).map (fun p => (Char.ofNat 12 :: p.1, p.2))
    | 'u', a :: b :: c :: d :: r3 =>
      match hexDigit a, hexDigit b, hexDigit c, hexDigit d with
      | some ha, some hb, some hc, some hd =>
        (parseStringBody r3).map
          (fun p => (Char.ofNat (((ha * 16 + hb) * 16 + hc) * 16 + hd) :: p.1, p.2))
      | _, _, _, _ => none
    | _, _ => none
  | '\\' :: [] => none
  | c :: r =>
    if c.toNat < 32 then none
    else (parseStringBody r).map (fun p => (c :: p.1, p.2))

/-- Digits of a decimal literal. -/
def takeDigits : List Char → List Char × List Char
  | [] => ([], [])
  | c :: rest =>
    if c.isDigit then
      let p := takeDigits rest
      (c :: p.1, p.2)
    else ([], c :: rest)

/-- Value of a digit list. -/
def digitsVal : List Char → Nat
  | [] => 0
  | ds => ds.foldl (fun acc c => acc * 10 + (c.toNat - '0'.toNat)) 0

/-- Integer JSON number literal (fractional literals are outside the model). -/
def parseNum : List Char → Option (Json × List Char)
  | '-' :: rest =>
    match takeDigits rest with
    | ([], _) => none
    | (ds, r) => some (Json.num (-(digitsVal ds : Int)), r)
  | s =>
    match takeDigits s with
    | ([], _) => none
    | (ds, r) => some (Json.num (digitsVal ds), r)

/-- Fuelled JSON value parser; the fuel decreases at every recursive call, and
`Json.parse` supplies enough fuel for any input.  Arrays and objects reinsert
their opening bracket when recursing past a comma, so every call consumes at
least one character of the original text. -/
def parseVal : Nat → List Char → Option (Json × List Char)
  | 0, _ => none
  | fuel + 1, s0 =>
    match skipWs s0 with
    | [] => none
    | 'n' :: 'u' :: 'l' :: 'l' :: rest => some (Json.null, rest)
    | 't' :: 'r' :: 'u' :: 'e' :: rest => some (Json.bool true, rest)
    | 'f' :: 'a' :: 'l' :: 's' :: 'e' :: rest => some (Json.bool false, rest)
    | '"' :: rest => (parseStringBody rest).map (fun p => (Json.str p.1, p.2))
    | '[' :: rest =>
      match skipWs rest with
      | ']' :: r2 => some (Json.arr [], r2)
      | r1 =>
        match parseVal fuel r1 with
        | none => none
        | some (v, r2) =>
          match skipWs r2 with
          | ',' :: r3 =>
            match parseVal fuel ('[' :: r3) with
            | some (Json.arr vs, r4) => some (Json.arr (v :: vs), r4)
            | _ => none
          | ']' :: r3 => some (Json.arr [v], r3)
          | _ => none
    | '\x7b' :: rest =>
      match skipWs rest with
      | '\x7d' :: r2 => some (Json.obj [], r2)
      | '"' :: r1 =>
        match parseStringBody r1 with
        | none => none
        | some (k, r2) =>
          match skipWs r2 with
          | ':' :: r3 =>
            match parseVal fuel r3 with
            | none => none
            | some (v, r4) =>
              match skipWs r4 with
              | ',' :: r5 =>
                match parseVal fuel ('\x7b' :: r5) with
                | some (Json.obj kvs, r6) => some (Json.obj ((k, v) :: kvs), r6)
                | _ => none
              | '\x7d' :: r5 => some (Json.obj [(k, v)], r5)
              | _ => none
          | _ => none
      | _ => none
    | c :: rest =>
      if c = '-' ∨ c.isDigit then parseNum (c :: rest) else none

/-- The browser's `JSON.parse`: parse one value and require that only
whitespace remains. -/
def Json.parse (s : List Char) : Option Json :=
  match parseVal (Nat.succ s.length) s with
  | some (v, r) => if skipWs r = [] then some v else none
  | none => none

/-- JavaScript property read on a parsed JSON value.  On a non-object the
result is `none` (JavaScript `undefined`); duplicate keys resolve to the last
binding, as `JSON.parse` does. -/
def getField (j : Json) (k : List Char) : Option Json :=
  match j with
  | Json.obj kvs => kvs.foldl (fun acc p => if p.1 = k then some p.2 else acc) none
  | _ => none

/-- Optional-chaining property read, `x?.k`. -/
def getFieldO (o : Option Json) (k : List Char) : Option Json :=
  match o with
  | some j => getField j k
  | none => none

/-- JavaScript truthiness of a JSON value. -/
def jsTruthy : Json → Bool
  | Json.null => false
  | Json.bool b => b
  | Json.num n => n ≠ 0
  | Json.str s => s ≠ []
  | Json.arr _ => true
  | Json.obj _ => true

/-- JavaScript `x || y` where `x` may be `undefined` (`none`). -/
def jsOrV (x : Option Json) (y : Json) : Json :=
  match x with
  | some v => if jsTruthy v then v else y
  | none => y

mutual

/-- Size of a JSON value, used to bound the fuel of the serializers. -/
def jsize : Json → Nat
  | Json.null => 1
  | Json.bool _ => 1
  | Json.num _ => 1
  | Json.str _ => 1
  | Json.arr xs => 1 + jsizeL xs
  | Json.obj kvs => 1 + jsizeK kvs

/-- Size of a list of JSON values. -/
def jsizeL : List Json → Nat
  | [] => 0
  | x :: xs => jsize x + jsizeL xs

/-- Size of a JSON key-value list. -/
def jsizeK : List (List Char × Json) → Nat
  | [] => 0
  | p :: ps => jsize p.2 + jsizeK ps

end

/-- Fuelled string coercion (template-literal interpolation).  Arrays render
comma separated with `null` entries blank, objects render as
`[object Object]`; fuel is bounded by the size of the value. -/
def jsDisplayF : Nat → Json → List Char
  | 0, _ => []
  | _ + 1, Json.null => chars "null"
  | _ + 1, Json.bool true => chars "true"
  | _ + 1, Json.bool false => chars "false"
  | _ + 1, Json.num n => (toString n).data
  | _ + 1, Json.str s => s
  | fuel + 1, Json.arr xs =>
    joinComma (xs.map (fun x => match x with
      | Json.null => []
      | v => jsDisplayF fuel v))
  | _ + 1, Json.obj _ => chars "[object Object]"
where
  joinComma : List (List Char) → List Char
    | [] => []
    | [d] => d
    | d :: rest => d ++ ',' :: joinComma rest

/-- JavaScript `String(x)` / template interpolation of a JSON value. -/
def jsDisplay (j : Json) : List Char := jsDisplayF (Nat.succ (jsize j)) j

/-- Escape one character for a JSON string literal, as `JSON.stringify` does. -/
def escChar (c : Char) : List Char :=
  if c = '"' then chars "\\\""
  else if c = '\\' then chars "\\\\"
  else if c = '\n' then chars "\\n"
  else if c = '\r' then chars "\\r"
  else if c = '\t' then chars "\\t"
  else if c = Char.ofNat 8 then chars "\\b"
  else if c = Char.ofNat 12 then chars "\\f"
  else if c.toNat < 32 then
    chars "\\u00" ++ [hexChar (c.toNat / 16), hexChar (c.toNat % 16)]
  else [c]
where
  hexChar (n : Nat) : Char := if n < 10 then Char.ofNat ('0'.toNat + n) else Char.ofNat ('a'.toNat + n - 10)

/-- Fuelled `JSON.stringify`; fuel is bounded by the size of the value. -/
def stringifyF : Nat → Json → List Char
  | 0, _ => []
  | _ + 1, Json.null => chars "null"
  | _ + 1, Json.bool true => chars "true"
  | _ + 1, Json.bool false => chars "false"
  | _ + 1, Json.num n => (toString n).data
  | _ + 1, Json.str s => '"' :: (s.map escChar).flatten ++ ['"']
  | fuel + 1, Json.arr xs =>
    '[' :: commaSep (xs.map (stringifyF fuel)) ++ [']']
  | fuel + 1, Json.obj kvs =>
    '\x7b' :: commaSep (kvs.map (fun p =>
      '"' :: (p.1.map escChar).flatten ++ '"' :: ':' :: stringifyF fuel p.2)) ++ ['\x7d']
where
  commaSep : List (List Char) → List Char
    | [] => []
    | [d] => d
    | d :: rest => d ++ ',' :: commaSep rest

/-- The browser's `JSON.stringify` on a parsed JSON value. -/
def jstringify (j : Json) : List Char := stringifyF (Nat.succ (jsize j)) j

/-! ## The incremental `TextDecoder`

State machine of the WHATWG UTF-8 decoder, fed one byte at a time.  The
`send` loop calls `decoder.decode(chunk, { stream: !done })`, so every data
chunk is decoded in streaming mode and the final empty read flushes the
decoder. -/

structure DecState where
  cp : Nat
  needed : Nat
  seen : Nat
  lower : Nat
  upper : Nat
deriving DecidableEq, Repr

/-- The initial decoder state. -/
def decInit : DecState := ⟨0, 0, 0, 0x80, 0xBF⟩

/-- The replacement character U+FFFD emitted for invalid input. -/
def repl : Char := Char.ofNat 0xFFFD

/-- Handle a byte in the initial state (not inside a multi-byte sequence). -/
def startByte (b : Nat) : DecState × List Char :=
  if b ≤ 0x7F then (decInit, [Char.ofNat b])
  else if 0xC2 ≤ b ∧ b ≤ 0xDF then
    ({ cp := b % 32, needed := 1, seen := 0, lower := 0x80, upper := 0xBF }, [])
  else if 0xE0 ≤ b ∧ b ≤ 0xEF then
    ({ cp := b % 16, needed := 2, seen := 0,
       lower := if b = 0xE0 then 0xA0 else 0x80,
       upper := if b = 0xED then 0x9F else 0xBF }, [])
  else if 0xF0 ≤ b ∧ b ≤ 0xF4 then
    ({ cp := b % 8, needed := 3, seen := 0,
       lower := if b = 0xF0 then 0x90 else 0x80,
       upper := if b = 0xF4 then 0x8F else 0xBF }, [])
  else (decInit, [repl])

/-- Feed a single byte to the decoder.  An out-of-range continuation byte
emits U+FFFD and is then reprocessed in the initial state, as the WHATWG
algorithm prescribes. -/
def feedByte (d : DecState) (b : Nat) : DecState × List Char :=
  if d.needed = 0 then startByte b
  else if d.lower ≤ b ∧ b ≤ d.upper then
    let cp := d.cp * 64 + b % 64
    if d.seen + 1 = d.needed then (decInit, [Char.ofNat cp])
    else ({ cp := cp, needed := d.needed, seen := d.seen + 1, lower := 0x80, upper := 0xBF }, [])
  else
    let p := startByte b
    (p.1, repl :: p.2)

/-- Feed a list of bytes, accumulating the decoded characters. -/
def feedBytes (d : DecState) : List Nat → DecState × List Char
  | [] => (d, [])
  | b :: rest =>
    let p := feedByte d b
    let q := feedBytes p.1 rest
    (q.1, p.2 ++ q.2)

/-- Final flush of the decoder (`decode` with `stream: false`): a pending
incomplete sequence becomes one replacement character. -/
def flushDec (d : DecState) : List Char :=
  if d.needed = 0 then [] else [repl]

/-- All text produced by decoding `bytes` from state `d` and then flushing. -/
def streamText (d : DecState) (bytes : List Nat) : List Char :=
  (feedBytes d bytes).2 ++ flushDec (feedBytes d bytes).1

/-! ## The SSE frame parser (`parseSseBlock`) -/

structure SseEvent where
  event : List Char
  payload : Json

/-- The line scan of `parseSseBlock`: the last `event:` line (sliced past the
prefix and trimmed) names the event, defaulting to `message`; every `data:`
line contributes one payload line, in order. -/
def sseScan (lines : List (List Char)) : List Char × List (List Char) :=
  lines.foldl
    (fun acc line =>
      let acc := if startsWithL (chars "event:") line then (trimL (line.drop 6), acc.2) else acc
      if startsWithL (chars "data:") line then (acc.1, acc.2 ++ [trimL (line.drop 5)]) else acc)
    (chars "message", [])

/-- The joined raw payload text of a frame. -/
def sseRaw (block : List Char) : List Char :=
  joinNl (sseScan (splitOn1 '\n' block)).2

/-- `parseSseBlock`: an empty block is `null`; otherwise the scanned event
name together with the parsed payload, falling back to `{ text: raw }` when
the raw text is non-empty but not valid JSON. -/
def parseSseBlock (block : List Char) : Option SseEvent :=
  if block = [] then none
  else
    let lines := splitOn1 '\n' block
    let sc := sseScan lines
    let raw := joinNl sc.2
    let payload :=
      if raw = [] then Json.obj []
      else match Json.parse raw with
        | some j => j
        | none => Json.obj [(chars "text", Json.str raw)]
    some ⟨sc.1, payload⟩

/-- Does the block contain a line starting with the event-name marker? -/
def hasEventLine (block : List Char) : Bool :=
  (splitOn1 '\n' block).any (startsWithL (chars "event:"))

/-- Does the block contain a data line? -/
def hasDataLine (block : List Char) : Bool :=
  (splitOn1 '\n' block).any (startsWithL (chars "data:"))

/-! ## Conversation state and the event dispatcher -/

structure Msg where
  id : Option (List Char)
  role : List Char
  content : List Char
deriving DecidableEq, Repr

/-- The `setMessages(prev => prev.map(...))` pattern: rewrite the content of
every message whose `id` equals the turn's assistant id, leaving all other
messages unchanged. -/
def updAssist (aid : List Char) (f : List Char → List Char) (msgs : List Msg) : List Msg :=
  msgs.map (fun mm => if mm.id = some aid then { mm with content := f mm.content } else mm)

/-- The `catch` handler of `send`: the assistant message's content becomes
the failure annotation built from the thrown error's message. -/
def catchH (aid : List Char) (msgs : List Msg) (emsg : List Char) : List Msg :=
  updAssist aid (fun _ => chars "Error: " ++ emsg) msgs

/-- Result of dispatching: either the updated message list, or a thrown
error's message together with the message list at the moment of the throw. -/
inductive DRes where
  | ok (msgs : List Msg)
  | err (emsg : List Char) (msgs : List Msg)
deriving DecidableEq, Repr

/-- Dispatch one parsed event, following the `tool_call` / `token` / `error`
branches of the `send` loop; any other event name leaves the state untouched. -/
def dispatchEvent (aid : List Char) (msgs : List Msg) (evt : SseEvent) : DRes :=
  if evt.event = chars "tool_call" then
    let toolName := jsOrV (getFieldO (getField evt.payload (chars "tool_call")) (chars "name"))
      (jsOrV (getField evt.payload (chars "tool")) (Json.str (chars "tool")))
    DRes.ok (updAssist aid
      (fun c => c ++ '\n' :: chars "[tool:" ++ jsDisplay toolName ++ chars "] " ++ jstringify evt.payload)
      msgs)
  else if evt.event = chars "token" then
    let token := jsOrV (getField evt.payload (chars "text")) (Json.str [])
    DRes.ok (updAssist aid (fun c => c ++ jsDisplay token) msgs)
  else if evt.event = chars "error" then
    DRes.err (jsDisplay (jsOrV (getField evt.payload (chars "message")) (Json.str (chars "Stream error")))) msgs
  else DRes.ok msgs

/-- Dispatch one delimited frame: unparseable (null) frames are skipped. -/
def dispatchBlock (aid : List Char) (msgs : List Msg) (block : List Char) : DRes :=
  match parseSseBlock block with
  | none => DRes.ok msgs
  | some evt => dispatchEvent aid msgs evt

/-- Dispatch a list of frames in order, stopping at the first thrown error. -/
def dispatchBlocks (aid : List Char) (msgs : List Msg) : List (List Char) → DRes
  | [] => DRes.ok msgs
  | b :: rest =>
    match dispatchBlock aid msgs b with
    | DRes.ok m => dispatchBlocks aid m rest
    | DRes.err e mm => DRes.err e mm

/-- Dispatch a list of parsed events in order, stopping at the first thrown
error. -/
def dispatchEvents (aid : List Char) (msgs : List Msg) : List SseEvent → DRes
  | [] => DRes.ok msgs
  | e :: rest =>
    match dispatchEvent aid msgs e with
    | DRes.ok m => dispatchEvents aid m rest
    | DRes.err x mm => DRes.err x mm

/-- State of the `while (!done)` read loop: the rendered messages, the
decoder state, and the trailing text buffer. -/
structure LoopState where
  msgs : List Msg
  dec : DecState
  buf : List Char
deriving DecidableEq, Repr

/-- Result of running (part of) the read loop. -/
inductive SRes where
  | ok (st : LoopState)
  | err (emsg : List Char) (msgs : List Msg)
deriving DecidableEq, Repr

/-- One iteration of the read loop on a data chunk: decode it in streaming
mode, append to the buffer, split on the blank-line delimiter, keep the last
segment buffered (`blocks.pop() || ""`), and dispatch the complete frames. -/
def stepChunk (aid : List Char) (st : LoopState) (bytes : List Nat) : SRes :=
  let p := feedBytes st.dec bytes
  let buffer := st.buf ++ p.2
  let blocks := splitOn2 '\n' '\n' buffer
  match dispatchBlocks aid st.msgs blocks.dropLast with
  | DRes.ok m => SRes.ok ⟨m, p.1, blocks.getLastD []⟩
  | DRes.err e mm => SRes.err e mm

/-- The final loop iteration (`read.done`): decode the empty chunk with
`stream: false`, which flushes the decoder, split and dispatch once more.
The loop then exits and whatever remains in the buffer is dropped. -/
def finalChunk (aid : List Char) (st : LoopState) : DRes :=
  let buffer := st.buf ++ flushDec st.dec
  let blocks := splitOn2 '\n' '\n' buffer
  dispatchBlocks aid st.msgs blocks.dropLast

/-- Run the read loop over the data chunks. -/
def runChunks (aid : List Char) (st : LoopState) : List (List Nat) → SRes
  | [] => SRes.ok st
  | c :: rest =>
    match stepChunk aid st c with
    | SRes.ok st' => runChunks aid st' rest
    | SRes.err e mm => SRes.err e mm

/-- The body of the `try` after a successful response: run the loop over the
chunks; a transport failure (`readFail`) rejects the pending read and throws
with its message; otherwise the final read flushes and the loop ends.
(`loadSemantic` does not touch the message list and is out of scope.) -/
def runBody (aid : List Char) (st0 : LoopState) (chunks : List (List Nat))
    (readFail : Option (List Char)) : DRes :=
  match runChunks aid st0 chunks with
  | SRes.err e mm => DRes.err e mm
  | SRes.ok st' =>
    match readFail with
    | some m => DRes.err m st'.msgs
    | none => finalChunk aid st'

/-- Run the loop to normal completion (no transport failure). -/
def runToEnd (aid : List Char) (st : LoopState) (chunks : List (List Nat)) : DRes :=
  runBody aid st chunks none

/-- The streaming POST response, as `send` observes it: `ok`/`status` of the
response, whether a body stream is present, the text `r.json()` would read on
the error path, the stream's chunks, and an optional transport failure that
rejects the read following the listed chunks. -/
structure Resp where
  ok : Bool
  status : Nat
  hasBody : Bool
  bodyText : List Char
  chunks : List (List Nat)
  readFail : Option (List Char)

/-- The two messages appended when a turn starts: the user's message and the
empty in-flight assistant message carrying the turn id. -/
def initMsgs (aid : List Char) (prev : List Msg) (u : List Char) : List Msg :=
  prev ++ [⟨none, chars "user", u⟩, ⟨some aid, chars "assistant", []⟩]

/-- The message of the error thrown on a non-ok response:
`data.detail || data.error || "Request failed"` on the parsed body.  (When
the body is not valid JSON, `r.json()` itself rejects with the platform's
SyntaxError; its exact text is a modelling constant.) -/
def badStatusMsg (bodyText : List Char) : List Char :=
  match Json.parse bodyText with
  | some j =>
    jsDisplay (jsOrV (getField j (chars "detail"))
      (jsOrV (getField j (chars "error")) (Json.str (chars "Request failed"))))
  | none => chars "Unexpected token"

/-- The `send` function of the streaming client, from the `setMessages`
appending the user/assistant pair to the end of the `try`/`catch`.  Returns
the final message list of the turn. -/
def send (aid : List Char) (prev : List Msg) (u : List Char) (r : Resp) : List Msg :=
  let init := initMsgs aid prev u
  let res :=
    if r.ok && r.hasBody then runBody aid ⟨init, decInit, []⟩ r.chunks r.readFail
    else DRes.err (badStatusMsg r.bodyText) init
  match res with
  | DRes.ok m => m
  | DRes.err e mm => catchH aid mm e

/-- A whole turn on given chunks with normal stream termination. -/
def consumeStream (aid : List Char) (msgs : List Msg) (chunks : List (List Nat)) : List Msg :=
  match runToEnd aid ⟨msgs, decInit, []⟩ chunks with
  | DRes.ok m => m
  | DRes.err e mm => catchH aid mm e

/-- Frame-level view of a turn: dispatch the frames, applying the `catch`
handler if one of them throws. -/
def runBlocksCatch (aid : List Char) (msgs : List Msg) (blocks : List (List Char)) : List Msg :=
  match dispatchBlocks aid msgs blocks with
  | DRes.ok m => m
  | DRes.err e mm => catchH aid mm e

/-! ## Structural lemmas -/

theorem splitOn2_ne_nil (d₁ d₂ : Char) (xs : List Char) : splitOn2 d₁ d₂ xs ≠ [] := by
  induction xs using splitOn2.induct d₁ d₂ with
  | case1 => simp [splitOn2]
  | case2 c => simp [splitOn2]
  | case3 c₁ c₂ rest h ih => simp [splitOn2, h]
  | case4 c₁ c₂ rest h ih =>
    simp only [splitOn2, if_neg h]
    cases splitOn2 d₁ d₂ (c₂ :: rest) with
    | nil => simp [consHead]
    | cons s ss => simp [consHead]

theorem splitOn2_cons2 (d₁ d₂ c₁ c₂ : Char) (l : List Char) (hm : ¬(c₁ = d₁ ∧ c₂ = d₂)) :
    splitOn2 d₁ d₂ (c₁ :: c₂ :: l) = consHead c₁ (splitOn2 d₁ d₂ (c₂ :: l)) := by
  rw [splitOn2, if_neg hm]

theorem splitOn2_singleton (d₁ d₂ : Char) (xs : List Char) :
    ∀ s, splitOn2 d₁ d₂ xs = [s] → s = xs := by
  induction xs using splitOn2.induct d₁ d₂ with
  | case1 => intro s h; simp_all [splitOn2]
  | case2 c => intro s h; simp_all [splitOn2]
  | case3 c₁ c₂ rest hm ih =>
    intro s h
    rw [splitOn2, if_pos hm] at h
    cases h3 : splitOn2 d₁ d₂ rest with
    | nil => exact absurd h3 (splitOn2_ne_nil d₁ d₂ rest)
    | cons a l => rw [h3] at h; simp at h
  | case4 c₁ c₂ rest hm ih =>
    intro s h
    rw [splitOn2, if_neg hm] at h
    cases h3 : splitOn2 d₁ d₂ (c₂ :: rest) with
    | nil => exact absurd h3 (splitOn2_ne_nil d₁ d₂ _)
    | cons t ts =>
      rw [h3, consHead] at h
      have hts : ts = [] := by cases ts <;> simp_all
      subst hts
      have ht : t = c₂ :: rest := ih t h3
      subst ht
      simp_all

theorem splitOn2_append (d₁ d₂ : Char) (xs ys : List Char) :
    splitOn2 d₁ d₂ (xs ++ ys)
      = (splitOn2 d₁ d₂ xs).dropLast
        ++ splitOn2 d₁ d₂ ((splitOn2 d₁ d₂ xs).getLastD [] ++ ys) := by
  induction xs using splitOn2.induct d₁ d₂ with
  | case1 => simp [splitOn2]
  | case2 c => simp [splitOn2]
  | case3 c₁ c₂ rest hm ih =>
    have hne := splitOn2_ne_nil d₁ d₂ rest
    have e1 : (c₁ :: c₂ :: rest) ++ ys = c₁ :: c₂ :: (rest ++ ys) := rfl
    rw [e1]
    simp only [splitOn2, if_pos hm]
    rw [List.dropLast_cons_of_ne_nil hne, List.getLastD_cons, List.cons_append, ih]
  | case4 c₁ c₂ rest hm ih =>
    have hne := splitOn2_ne_nil d₁ d₂ (c₂ :: rest)
    rw [List.cons_append] at ih
    have e1 : (c₁ :: c₂ :: rest) ++ ys = c₁ :: c₂ :: (rest ++ ys) := rfl
    rw [e1, splitOn2_cons2 d₁ d₂ c₁ c₂ (rest ++ ys) hm,
      splitOn2_cons2 d₁ d₂ c₁ c₂ rest hm, ih]
    cases h3 : splitOn2 d₁ d₂ (c₂ :: rest) with
    | nil => exact absurd h3 hne
    | cons t ts =>
      cases ts with
      | nil =>
        have ht : t = c₂ :: rest := splitOn2_singleton d₁ d₂ _ t h3
        subst ht
        simp only [consHead, List.dropLast_single, List.nil_append,
          List.getLastD_cons, List.getLastD_nil]
        rw [show (c₁ :: (c₂ :: rest)) ++ ys = c₁ :: c₂ :: (rest ++ ys) from rfl,
          splitOn2_cons2 d₁ d₂ c₁ c₂ (rest ++ ys) hm,
          show (c₂ :: rest) ++ ys = c₂ :: (rest ++ ys) from rfl]
        cases splitOn2 d₁ d₂ (c₂ :: (rest ++ ys)) <;> rfl
      | cons u us =>
        simp only [List.getLastD_cons]
        rw [show consHead c₁ (t :: u :: us) = (c₁ :: t) :: u :: us from rfl]
        rw [show ((c₁ :: t) :: u :: us).dropLast = (c₁ :: t) :: (u :: us).dropLast from rfl]
        simp only [List.getLastD_cons, List.cons_append]
        rfl

theorem dispatchBlocks_append (aid : List Char) (msgs : List Msg) (X Y : List (List Char)) :
    dispatchBlocks aid msgs (X ++ Y)
      = match dispatchBlocks aid msgs X with
        | DRes.ok m => dispatchBlocks aid m Y
        | DRes.err e mm => DRes.err e mm := by
  induction X generalizing msgs with
  | nil => rfl
  | cons b rest ih =>
    simp only [List.cons_append, dispatchBlocks]
    cases dispatchBlock aid msgs b with
    | ok m => exact ih m
    | err e mm => rfl

theorem feedBytes_append (d : DecState) (a b : List Nat) :
    feedBytes d (a ++ b)
      = ((feedBytes (feedBytes d a).1 b).1,
         (feedBytes d a).2 ++ (feedBytes (feedBytes d a).1 b).2) := by
  induction a generalizing d with
  | nil => simp [feedBytes]
  | cons x rest ih => simp [feedBytes, ih, List.append_assoc]

theorem streamText_append (d : DecState) (a b : List Nat) :
    streamText d (a ++ b) = (feedBytes d a).2 ++ streamText (feedBytes d a).1 b := by
  simp [streamText, feedBytes_append, List.append_assoc]

theorem runToEnd_cons (aid : List Char) (st : LoopState) (c : List Nat)
    (rest : List (List Nat)) :
    runToEnd aid st (c :: rest)
      = match stepChunk aid st c with
        | SRes.ok st' => runToEnd aid st' rest
        | SRes.err e mm => DRes.err e mm := by
  cases h : stepChunk aid st c with
  | ok st' => simp [runToEnd, runBody, runChunks, h]
  | err e mm => simp [runToEnd, runBody, runChunks, h]

/-- The read loop, run to normal completion from an arbitrary loop state,
dispatches exactly the complete frames of the whole remaining decoded text:
all segments of the blank-line split except the last, in order.  The trailing
segment is never dispatched. -/
theorem runToEnd_spec (aid : List Char) (msgs : List Msg) (d : DecState) (buf : List Char)
    (chunks : List (List Nat)) :
    runToEnd aid ⟨msgs, d, buf⟩ chunks
      = dispatchBlocks aid msgs (splitOn2 '\n' '\n' (buf ++ streamText d chunks.flatten)).dropLast := by
  induction chunks generalizing msgs d buf with
  | nil =>
    simp [runToEnd, runBody, runChunks, finalChunk, streamText, feedBytes]
  | cons c rest ih =>
    rw [runToEnd_cons]
    have hflat : (c :: rest).flatten = c ++ rest.flatten := rfl
    rw [hflat, streamText_append, ← List.append_assoc, splitOn2_append,
        List.dropLast_append_of_ne_nil _ (splitOn2_ne_nil _ _ _), dispatchBlocks_append]
    simp only [stepChunk]
    cases h : dispatchBlocks aid msgs (splitOn2 '\n' '\n' (buf ++ (feedBytes d c).2)).dropLast with
    | ok m => simp only [h, ih]
    | err e mm => simp only [h]

theorem startsWithL_refl (s : List Char) : startsWithL s s = true := by
  induction s with
  | nil => rfl
  | cons c r ih => simp [startsWithL, ih]

theorem hasSub_append_self (pre p : List Char) : hasSub p (pre ++ p) = true := by
  induction pre with
  | nil =>
    cases p with
    | nil => rfl
    | cons c r => simp [hasSub, startsWithL_refl]
  | cons c pre ih => simp [hasSub, ih]

theorem sseScan_skip (lines : List (List Char))
    (h : ∀ l ∈ lines, startsWithL (chars "event:") l = false
          ∧ startsWithL (chars "data:") l = false) :
    sseScan lines = (chars "message", []) := by
  unfold sseScan
  generalize (chars "message", ([] : List (List Char))) = acc
  induction lines generalizing acc with
  | nil => rfl
  | cons l rest ih =>
    have h1 := (h l (by simp)).1
    have h2 := (h l (by simp)).2
    simp only [List.foldl_cons, h1, h2, Bool.false_eq_true, if_false]
    exact ih (fun l2 hl2 => h l2 (by simp [hl2])) acc

theorem updAssist_skip (aid : List Char) (f : List Char → List Char) (msgs : List Msg)
    (h : ∀ mm ∈ msgs, mm.id ≠ some aid) : updAssist aid f msgs = msgs := by
  induction msgs with
  | nil => rfl
  | cons m rest ih =>
    simp only [updAssist, List.map_cons] at *
    rw [if_neg (h m (by simp)), ih (fun mm hm => h mm (by simp [hm]))]

theorem updAssist_turn (aid : List Char) (f : List Char → List Char) (prev : List Msg)
    (u um r c : List Char) (h : ∀ mm ∈ prev, mm.id ≠ some aid) :
    updAssist aid f (prev ++ [⟨none, u, um⟩, ⟨some aid, r, c⟩])
      = prev ++ [⟨none, u, um⟩, ⟨some aid, r, f c⟩] := by
  simp only [updAssist, List.map_append]
  have h1 := updAssist_skip aid f prev h
  simp only [updAssist] at h1
  rw [h1]
  simp

theorem updAssist_nilf (aid : List Char) (msgs : List Msg) :
    updAssist aid (fun c => c ++ []) msgs = msgs := by
  induction msgs with
  | nil => rfl
  | cons m rest ih =>
    simp only [updAssist, List.map_cons] at *
    rw [ih]
    split <;> simp

theorem updAssist_length (aid : List Char) (f : List Char → List Char) (msgs : List Msg) :
    (updAssist aid f msgs).length = msgs.length := by
  simp [updAssist]

theorem updAssist_getElem_ne (aid : List Char) (f : List Char → List Char) (msgs : List Msg)
    (i : Nat) (mm : Msg) (h : msgs[i]? = some mm) (hm : mm.id ≠ some aid) :
    (updAssist aid f msgs)[i]? = some mm := by
  unfold updAssist
  rw [List.getElem?_map, h, Option.map_some']
  rw [if_neg hm]

theorem jsDisplay_str (s : List Char) : jsDisplay (Json.str s) = s := by
  simp [jsDisplay, jsDisplayF]

theorem jsDisplay_orV_str (b : List Char) :
    jsDisplay (jsOrV (some (Json.str b)) (Json.str [])) = b := by
  show jsDisplay (if jsTruthy (Json.str b) = true then Json.str b else Json.str []) = b
  by_cases hb : b = []
  · subst hb
    exact jsDisplay_str []
  · rw [if_pos (by simp [jsTruthy, hb]), jsDisplay_str]

theorem jsOrV_truthy_str (b : List Char) (y : Json) (hb : b ≠ []) :
    jsOrV (some (Json.str b)) y = Json.str b := by
  show (if jsTruthy (Json.str b) = true then Json.str b else y) = Json.str b
  rw [if_pos (by simp [jsTruthy, hb])]

/-! ## The claims -/

/-- Claim C6: for every frame whose joined data-line text is non-empty and is
not valid JSON, `parseSseBlock` returns the event with the raw-text fallback
payload `{ text: <raw payload> }` instead of failing; frame parsing is a total
function and never fails outward. -/
theorem frameFallback_C6 (block : List Char)
    (hraw : sseRaw block ≠ [])
    (hjson : Json.parse (sseRaw block) = none) :
    parseSseBlock block
      = some ⟨(sseScan (splitOn1 '\n' block)).1,
              Json.obj [(chars "text", Json.str (sseRaw block))]⟩ := by
  have hb : block ≠ [] := by
    intro hx
    subst hx
    exact hraw rfl
  have h1 : joinNl (sseScan (splitOn1 '\n' block)).2 = sseRaw block := rfl
  simp only [parseSseBlock, if_neg hb, h1, hjson, if_neg hraw]

/-- Witness for C6: the frame `data: not-json` parses to a `message` event
whose payload's text field is exactly `not-json`. -/
theorem frameFallback_C6_witness :
    parseSseBlock (chars "data: not-json")
      = some ⟨chars "message", Json.obj [(chars "text", Json.str (chars "not-json"))]⟩ :=
  frameFallback_C6 (chars "data: not-json") (by decide) rfl

/-- Claim C8 is false as stated: a frame with no event-name line and no data
line is not always mapped to `null` — only the empty frame is.  The one-line
frame `x` has neither an event-name line nor a data line, yet `parseSseBlock`
returns a (default `message`) event rather than `null`. -/
theorem emptyFrame_C8_counterexample :
    hasEventLine (chars "x") = false ∧ hasDataLine (chars "x") = false ∧
      parseSseBlock (chars "x") = some ⟨chars "message", Json.obj []⟩ ∧
      parseSseBlock (chars "x") ≠ none := by
  refine ⟨rfl, rfl, rfl, ?_⟩
  intro h
  rw [show parseSseBlock (chars "x") = some ⟨chars "message", Json.obj []⟩ from rfl] at h
  exact Option.noConfusion h

/-- Claim C8 (amended): only the empty frame parses to `null`; any frame with
no event-name line and no data line is either `null` (empty frame, skipped by
the dispatcher) or a default `message` event with empty payload, and in both
cases dispatching it leaves the message list unchanged. -/
theorem emptyFrame_C8_amended (aid : List Char) (msgs : List Msg) (block : List Char)
    (he : hasEventLine block = false) (hd : hasDataLine block = false) :
    dispatchBlock aid msgs block = DRes.ok msgs ∧ parseSseBlock [] = none := by
  refine ⟨?_, rfl⟩
  unfold dispatchBlock
  by_cases hb : block = []
  · subst hb; rfl
  · have hscan : sseScan (splitOn1 '\n' block) = (chars "message", []) := by
      apply sseScan_skip
      intro l hl
      unfold hasEventLine at he
      unfold hasDataLine at hd
      have h1 := (List.any_eq_false.mp he) l hl
      have h2 := (List.any_eq_false.mp hd) l hl
      exact ⟨by simpa using h1, by simpa using h2⟩
    have hp : parseSseBlock block = some ⟨chars "message", Json.obj []⟩ := by
      simp only [parseSseBlock, if_neg hb, hscan]
      rfl
    rw [hp]
    rfl

/-- Witness for the amended C8: dispatching the frame `x` (no event-name
line, no data line) leaves a concrete message list unchanged. -/
theorem emptyFrame_C8_witness :
    dispatchBlock (chars "a1") [⟨some (chars "a1"), chars "assistant", []⟩] (chars "x")
      = DRes.ok [⟨some (chars "a1"), chars "assistant", []⟩] :=
  (emptyFrame_C8_amended (chars "a1") [⟨some (chars "a1"), chars "assistant", []⟩]
    (chars "x") rfl rfl).1

/-- Claim C10: dispatching a `token` event is total over arbitrary payload
shapes; when the payload is not an object or has no text field (so the
JavaScript read `payload?.text` is undefined), no error is thrown and the
message list — in particular the in-flight assistant content — is unchanged. -/
theorem tokenTotal_C10 (aid : List Char) (msgs : List Msg) (p : Json)
    (h : getField p (chars "text") = none) :
    dispatchEvent aid msgs ⟨chars "token", p⟩ = DRes.ok msgs := by
  have h2 : dispatchEvent aid msgs ⟨chars "token", p⟩
      = DRes.ok (updAssist aid
          (fun c => c ++ jsDisplay (jsOrV (getField p (chars "text")) (Json.str []))) msgs) := rfl
  rw [h2, h]
  show DRes.ok (updAssist aid (fun c => c ++ []) msgs) = DRes.ok msgs
  rw [updAssist_nilf]

/-- Witness for C10: a `token` event whose payload is the empty object leaves
a concrete message list unchanged. -/
theorem tokenTotal_C10_witness :
    dispatchEvent (chars "a1") [⟨some (chars "a1"), chars "assistant", chars "He"⟩]
        ⟨chars "token", Json.obj []⟩
      = DRes.ok [⟨some (chars "a1"), chars "assistant", chars "He"⟩] :=
  tokenTotal_C10 (chars "a1") [⟨some (chars "a1"), chars "assistant", chars "He"⟩]
    (Json.obj []) rfl

/-- Claim C9: every dispatched event mutates at most the single in-flight
assistant message: any successful dispatch preserves the length (and thus the
order) of the message list and leaves every message whose id differs from the
turn's assistant id unchanged; a thrown `error` event leaves the list as it
was; and the catch handler obeys the same discipline. -/
theorem singleWriter_C9 (aid : List Char) (msgs : List Msg) (evt : SseEvent) :
    (∀ res, dispatchEvent aid msgs evt = DRes.ok res →
        res.length = msgs.length ∧
        ∀ (i : Nat) (mm : Msg), msgs[i]? = some mm → mm.id ≠ some aid → res[i]? = some mm)
    ∧ (∀ e mm, dispatchEvent aid msgs evt = DRes.err e mm → mm = msgs)
    ∧ (∀ e, (catchH aid msgs e).length = msgs.length ∧
        ∀ (i : Nat) (mm : Msg), msgs[i]? = some mm → mm.id ≠ some aid →
          (catchH aid msgs e)[i]? = some mm) := by
  refine ⟨?_, ?_, ?_⟩
  · intro res hres
    unfold dispatchEvent at hres
    split at hres
    · cases hres
      exact ⟨updAssist_length _ _ _, fun i mm h hm => updAssist_getElem_ne _ _ _ _ _ h hm⟩
    · split at hres
      · cases hres
        exact ⟨updAssist_length _ _ _, fun i mm h hm => updAssist_getElem_ne _ _ _ _ _ h hm⟩
      · split at hres
        · exact DRes.noConfusion hres
        · cases hres
          exact ⟨rfl, fun i mm h _ => h⟩
  · intro e mm hres
    unfold dispatchEvent at hres
    split at hres
    · exact DRes.noConfusion hres
    · split at hres
      · exact DRes.noConfusion hres
      · split at hres
        · cases hres; rfl
        · exact DRes.noConfusion hres
  · intro e
    exact ⟨updAssist_length _ _ _, fun i mm h hm => updAssist_getElem_ne _ _ _ _ _ h hm⟩

/-- Witness for C9: dispatching a concrete `token` event on a two-message
list leaves the user message (index 0) unchanged. -/
theorem singleWriter_C9_witness :
    ([⟨none, chars "user", chars "hi"⟩,
      ⟨some (chars "a1"), chars "assistant", chars "He"⟩] : List Msg)[0]?
      = some ⟨none, chars "user", chars "hi"⟩ :=
  ((singleWriter_C9 (chars "a1")
      [⟨none, chars "user", chars "hi"⟩, ⟨some (chars "a1"), chars "assistant", []⟩]
      ⟨chars "token", Json.obj [(chars "text", Json.str (chars "He"))]⟩).1
    [⟨none, chars "user", chars "hi"⟩, ⟨some (chars "a1"), chars "assistant", chars "He"⟩]
    rfl).2 0 ⟨none, chars "user", chars "hi"⟩ rfl (by decide)

/-- Claim C3: a turn that receives only `token` events, each carrying a
string text field, accumulates exactly the concatenation of those texts in
arrival order onto the in-flight assistant message; all other messages are
untouched. -/
theorem tokenOrder_C3 (aid : List Char) (prev : List Msg) (u c : List Char)
    (evts : List SseEvent) (texts : List (List Char))
    (hp : ∀ mm ∈ prev, mm.id ≠ some aid)
    (h : List.Forall₂ (fun (e : SseEvent) (t : List Char) =>
          e.event = chars "token" ∧ getField e.payload (chars "text") = some (Json.str t))
          evts texts) :
    dispatchEvents aid (prev ++ [⟨none, chars "user", u⟩, ⟨some aid, chars "assistant", c⟩]) evts
      = DRes.ok (prev ++ [⟨none, chars "user", u⟩,
                          ⟨some aid, chars "assistant", c ++ texts.flatten⟩]) := by
  induction h generalizing c with
  | nil => simp [dispatchEvents]
  | @cons a b l₁ l₂ hab h2 ih =>
    obtain ⟨hev, htxt⟩ := hab
    have hd : ∀ msgs : List Msg, dispatchEvent aid msgs a
        = DRes.ok (updAssist aid (fun cc => cc ++ b) msgs) := by
      intro msgs
      unfold dispatchEvent
      rw [hev, if_neg (by decide), if_pos rfl, htxt]
      simp only [jsDisplay_orV_str]
    simp only [dispatchEvents, hd, updAssist_turn aid _ prev _ _ _ _ hp]
    rw [ih (c ++ b)]
    simp [List.append_assoc]

/-- Witness for C3: token events `He` then `llo` produce final assistant
content `Hello`. -/
theorem tokenOrder_C3_witness :
    dispatchEvents (chars "a1")
        [⟨none, chars "user", chars "hi"⟩, ⟨some (chars "a1"), chars "assistant", []⟩]
        [⟨chars "token", Json.obj [(chars "text", Json.str (chars "He"))]⟩,
         ⟨chars "token", Json.obj [(chars "text", Json.str (chars "llo"))]⟩]
      = DRes.ok [⟨none, chars "user", chars "hi"⟩,
                 ⟨some (chars "a1"), chars "assistant", chars "Hello"⟩] :=
  tokenOrder_C3 (chars "a1") [] (chars "hi") []
    [⟨chars "token", Json.obj [(chars "text", Json.str (chars "He"))]⟩,
     ⟨chars "token", Json.obj [(chars "text", Json.str (chars "llo"))]⟩]
    [chars "He", chars "llo"]
    (by simp)
    (List.Forall₂.cons ⟨rfl, rfl⟩ (List.Forall₂.cons ⟨rfl, rfl⟩ List.Forall₂.nil))

/-- Claim C4: an `error` event with a (non-empty string) message `m` is
terminal for the turn: the catch handler fires with `m`, the final assistant
content contains `m`, and no frame delimited after the error frame is
dispatched — the result does not depend on the frames following the error. -/
theorem errorTerminal_C4 (aid : List Char) (init : List Msg) (B1 : List (List Char))
    (eb : List Char) (B2 : List (List Char)) (p : Json) (m : List Char) (msgs1 : List Msg)
    (hparse : parseSseBlock eb = some ⟨chars "error", p⟩)
    (hmsg : getField p (chars "message") = some (Json.str m))
    (hm : m ≠ [])
    (hB1 : dispatchBlocks aid init B1 = DRes.ok msgs1) :
    runBlocksCatch aid init (B1 ++ eb :: B2) = catchH aid msgs1 m
    ∧ ∀ mm ∈ catchH aid msgs1 m, mm.id = some aid → hasSub m mm.content = true := by
  have herr : dispatchBlock aid msgs1 eb = DRes.err m msgs1 := by
    unfold dispatchBlock
    rw [hparse]
    show dispatchEvent aid msgs1 ⟨chars "error", p⟩ = DRes.err m msgs1
    have h2 : dispatchEvent aid msgs1 ⟨chars "error", p⟩
        = DRes.err (jsDisplay (jsOrV (getField p (chars "message"))
            (Json.str (chars "Stream error")))) msgs1 := rfl
    rw [h2, hmsg, jsOrV_truthy_str m (Json.str (chars "Stream error")) hm, jsDisplay_str]
  have hall : dispatchBlocks aid init (B1 ++ eb :: B2) = DRes.err m msgs1 := by
    rw [dispatchBlocks_append aid init B1 (eb :: B2), hB1]
    show dispatchBlocks aid msgs1 (eb :: B2) = DRes.err m msgs1
    unfold dispatchBlocks
    rw [herr]
  constructor
  · unfold runBlocksCatch
    rw [hall]
  · intro mm hmm hid
    unfold catchH updAssist at hmm
    obtain ⟨mo, hmo, hEq⟩ := List.mem_map.mp hmm
    by_cases ho : mo.id = some aid
    · rw [if_pos ho] at hEq
      subst hEq
      exact hasSub_append_self (chars "Error: ") m
    · rw [if_neg ho] at hEq
      subst hEq
      exact absurd hid ho

/-- Witness for C4: a token frame `He`, then an error frame `boom`, then a
further token frame `llo`: the turn ends at the error, the later token frame
is not applied, and the final content is the annotation built from `boom`. -/
theorem errorTerminal_C4_witness :
    runBlocksCatch (chars "a1")
        [⟨none, chars "user", chars "hi"⟩, ⟨some (chars "a1"), chars "assistant", []⟩]
        ([chars "event: token\ndata: \x7b\"text\":\"He\"\x7d"]
          ++ chars "event: error\ndata: \x7b\"message\":\"boom\"\x7d"
          :: [chars "event: token\ndata: \x7b\"text\":\"llo\"\x7d"])
      = catchH (chars "a1")
          [⟨none, chars "user", chars "hi"⟩, ⟨some (chars "a1"), chars "assistant", chars "He"⟩]
          (chars "boom") :=
  (errorTerminal_C4 (chars "a1")
    [⟨none, chars "user", chars "hi"⟩, ⟨some (chars "a1"), chars "assistant", []⟩]
    [chars "event: token\ndata: \x7b\"text\":\"He\"\x7d"]
    (chars "event: error\ndata: \x7b\"message\":\"boom\"\x7d")
    [chars "event: token\ndata: \x7b\"text\":\"llo\"\x7d"]
    (Json.obj [(chars "message", Json.str (chars "boom"))])
    (chars "boom")
    [⟨none, chars "user", chars "hi"⟩, ⟨some (chars "a1"), chars "assistant", chars "He"⟩]
    rfl rfl (by decide) rfl).1

/-- After the catch handler fires with error message `e`, every message
carrying the turn's assistant id has content exactly `Error: <e>`. -/
theorem catchH_content (aid : List Char) (msgs : List Msg) (e : List Char) :
    ∀ mm ∈ catchH aid msgs e, mm.id = some aid → mm.content = chars "Error: " ++ e := by
  intro mm hmm hid
  unfold catchH updAssist at hmm
  obtain ⟨mo, hmo, hEq⟩ := List.mem_map.mp hmm
  by_cases ho : mo.id = some aid
  · rw [if_pos ho] at hEq
    subst hEq
    rfl
  · rw [if_neg ho] at hEq
    subst hEq
    exact absurd hid ho

/-- Claim C7: after each decoded chunk the buffered text is split on the
blank-line delimiter; all segments but the last are dispatched as complete
frames in order and removed from the buffer, and the last segment stays
buffered.  On stream completion, the whole run dispatches exactly the
complete frames of the total decoded text — the trailing segment that does
not form a complete frame is dropped, never dispatched, and raises no
error. -/
theorem bufferSplit_C7 (aid : List Char) :
    (∀ (st : LoopState) (bytes : List Nat) (st2 : LoopState),
        stepChunk aid st bytes = SRes.ok st2 →
          st2.buf = (splitOn2 '\n' '\n' (st.buf ++ (feedBytes st.dec bytes).2)).getLastD []
          ∧ dispatchBlocks aid st.msgs
              (splitOn2 '\n' '\n' (st.buf ++ (feedBytes st.dec bytes).2)).dropLast
            = DRes.ok st2.msgs)
    ∧ (∀ (msgs : List Msg) (chunks : List (List Nat)),
        runToEnd aid ⟨msgs, decInit, []⟩ chunks
          = dispatchBlocks aid msgs
              (splitOn2 '\n' '\n' (streamText decInit chunks.flatten)).dropLast) := by
  constructor
  · intro st bytes st2 h
    simp only [stepChunk] at h
    split at h
    · rename_i m heq
      cases h
      exact ⟨rfl, heq⟩
    · exact SRes.noConfusion h
  · intro msgs chunks
    have h := runToEnd_spec aid msgs decInit [] chunks
    simpa using h

/-- Witness for C7: feeding one chunk holding a complete token frame plus a
torn trailing fragment `tail` dispatches the frame and leaves exactly `tail`
buffered. -/
theorem bufferSplit_C7_witness :
    (⟨[⟨none, chars "user", chars "hi"⟩,
       ⟨some (chars "a1"), chars "assistant", chars "He"⟩],
      decInit, chars "tail"⟩ : LoopState).buf
      = (splitOn2 '\n' '\n'
          ((⟨[⟨none, chars "user", chars "hi"⟩,
              ⟨some (chars "a1"), chars "assistant", []⟩], decInit, []⟩ : LoopState).buf
            ++ (feedBytes decInit
                ((chars "event: token\ndata: \x7b\"text\":\"He\"\x7d\n\ntail").map Char.toNat)).2)).getLastD []
    ∧ dispatchBlocks (chars "a1")
        [⟨none, chars "user", chars "hi"⟩, ⟨some (chars "a1"), chars "assistant", []⟩]
        (splitOn2 '\n' '\n'
          ((⟨[⟨none, chars "user", chars "hi"⟩,
              ⟨some (chars "a1"), chars "assistant", []⟩], decInit, []⟩ : LoopState).buf
            ++ (feedBytes decInit
                ((chars "event: token\ndata: \x7b\"text\":\"He\"\x7d\n\ntail").map Char.toNat)).2)).dropLast
      = DRes.ok [⟨none, chars "user", chars "hi"⟩,
                 ⟨some (chars "a1"), chars "assistant", chars "He"⟩] :=
  (bufferSplit_C7 (chars "a1")).1
    ⟨[⟨none, chars "user", chars "hi"⟩, ⟨some (chars "a1"), chars "assistant", []⟩], decInit, []⟩
    ((chars "event: token\ndata: \x7b\"text\":\"He\"\x7d\n\ntail").map Char.toNat)
    ⟨[⟨none, chars "user", chars "hi"⟩,
      ⟨some (chars "a1"), chars "assistant", chars "He"⟩], decInit, chars "tail"⟩
    rfl

/-- Claim C2: chunking invariance — two chunk sequences carrying the same
bytes (splits may fall inside a multi-byte UTF-8 character or inside a
frame) produce exactly the same final message list after full consumption. -/
theorem chunkInvariance_C2 (aid : List Char) (msgs : List Msg)
    (chunks1 chunks2 : List (List Nat)) (h : chunks1.flatten = chunks2.flatten) :
    consumeStream aid msgs chunks1 = consumeStream aid msgs chunks2 := by
  unfold consumeStream
  rw [runToEnd_spec aid msgs decInit [] chunks1, runToEnd_spec aid msgs decInit [] chunks2, h]

/-- Witness for C2: the token frame carrying the two-byte character U+00E9
split in the middle of that character (after 29 bytes) consumes to the same
final messages as the unsplit frame. -/
theorem chunkInvariance_C2_witness :
    consumeStream (chars "a1")
        [⟨none, chars "user", chars "hi"⟩, ⟨some (chars "a1"), chars "assistant", []⟩]
        [(((chars "event: token\ndata: \x7b\"text\":\"").map Char.toNat)
            ++ [195, 169] ++ ((chars "\"\x7d\n\n").map Char.toNat)).take 29,
         (((chars "event: token\ndata: \x7b\"text\":\"").map Char.toNat)
            ++ [195, 169] ++ ((chars "\"\x7d\n\n").map Char.toNat)).drop 29]
      = consumeStream (chars "a1")
          [⟨none, chars "user", chars "hi"⟩, ⟨some (chars "a1"), chars "assistant", []⟩]
          [((chars "event: token\ndata: \x7b\"text\":\"").map Char.toNat)
            ++ [195, 169] ++ ((chars "\"\x7d\n\n").map Char.toNat)] :=
  chunkInvariance_C2 (chars "a1")
    [⟨none, chars "user", chars "hi"⟩, ⟨some (chars "a1"), chars "assistant", []⟩]
    _ _ rfl

/-- Claim C1 is false as stated: after the token `He` has been applied, a
transport failure with message `boom` replaces the assistant content with
`Error: boom`; the previously accumulated `He` is discarded — the final
content does not contain it, and nothing is appended after it. -/
theorem transportFail_C1_counterexample :
    send (chars "a1") [] (chars "hi")
        ⟨true, 200, true, [],
         [(chars "event: token\ndata: \x7b\"text\":\"He\"\x7d\n\n").map Char.toNat],
         some (chars "boom")⟩
      = [⟨none, chars "user", chars "hi"⟩,
         ⟨some (chars "a1"), chars "assistant", chars "Error: boom"⟩]
    ∧ runChunks (chars "a1") ⟨initMsgs (chars "a1") [] (chars "hi"), decInit, []⟩
        [(chars "event: token\ndata: \x7b\"text\":\"He\"\x7d\n\n").map Char.toNat]
      = SRes.ok ⟨[⟨none, chars "user", chars "hi"⟩,
                  ⟨some (chars "a1"), chars "assistant", chars "He"⟩], decInit, []⟩
    ∧ hasSub (chars "He") (chars "Error: boom") = false :=
  ⟨rfl, rfl, rfl⟩

/-- Claim C1 (amended): on a transport failure carrying message `m` after any
chunks whose dispatch threw no error event, the catch handler REPLACES the
in-flight assistant message's content with exactly the failure annotation
`Error: <m>`; accumulated partial output is discarded, not preserved. -/
theorem transportFail_C1_amended (aid : List Char) (prev : List Msg) (u bt : List Char)
    (status : Nat) (chunks : List (List Nat)) (m : List Char) (lst : LoopState)
    (hrun : runChunks aid ⟨initMsgs aid prev u, decInit, []⟩ chunks = SRes.ok lst) :
    send aid prev u ⟨true, status, true, bt, chunks, some m⟩ = catchH aid lst.msgs m
    ∧ ∀ mm ∈ catchH aid lst.msgs m, mm.id = some aid →
        mm.content = chars "Error: " ++ m := by
  refine ⟨?_, catchH_content aid lst.msgs m⟩
  have h1 : send aid prev u ⟨true, status, true, bt, chunks, some m⟩
      = (match runBody aid ⟨initMsgs aid prev u, decInit, []⟩ chunks (some m) with
         | DRes.ok mr => mr
         | DRes.err e mm => catchH aid mm e) := rfl
  rw [h1]
  unfold runBody
  rw [hrun]

/-- Claim C5 is false in one conjunct: the fallback failure text for a body
with no `detail`/`error` field is not keyed by the status code — it is the
fixed string `Request failed` for every status.  Responses with body `{}`
differing only in status (500 versus 404) surface identical text carrying no
status information. -/
theorem preStreamFail_C5_counterexample :
    send (chars "a1") [] (chars "hi") ⟨false, 500, true, chars "\x7b\x7d", [], none⟩
      = [⟨none, chars "user", chars "hi"⟩,
         ⟨some (chars "a1"), chars "assistant", chars "Error: Request failed"⟩]
    ∧ send (chars "a1") [] (chars "hi") ⟨false, 404, true, chars "\x7b\x7d", [], none⟩
      = send (chars "a1") [] (chars "hi") ⟨false, 500, true, chars "\x7b\x7d", [], none⟩ :=
  ⟨rfl, rfl⟩

/-- Claim C5 (amended): on a non-ok response the consumer never enters
streaming mode — the final messages do not depend on the stream contents at
all; the body is read and parsed as JSON and the surfaced text is the body's
`detail` field when present (JavaScript-truthy), else its `error` field, else
the fixed generic text `Request failed` independent of the status code; the
failure is annotated on the assistant message by the catch handler. -/
theorem preStreamFail_C5_amended (aid : List Char) (prev : List Msg) (u : List Char)
    (r : Resp) (hok : r.ok = false) :
    send aid prev u r = catchH aid (initMsgs aid prev u) (badStatusMsg r.bodyText)
    ∧ (∀ status2 chunks2 rf2,
        send aid prev u ⟨r.ok, status2, r.hasBody, r.bodyText, chunks2, rf2⟩
          = send aid prev u r)
    ∧ (∀ j d, Json.parse r.bodyText = some j →
        getField j (chars "detail") = some (Json.str d) → d ≠ [] →
        ∀ mm ∈ send aid prev u r, mm.id = some aid →
          mm.content = chars "Error: " ++ d)
    ∧ (∀ j, Json.parse r.bodyText = some j → getField j (chars "detail") = none →
        getField j (chars "error") = none →
        ∀ mm ∈ send aid prev u r, mm.id = some aid →
          mm.content = chars "Error: " ++ chars "Request failed") := by
  have hsend : send aid prev u r
      = catchH aid (initMsgs aid prev u) (badStatusMsg r.bodyText) := by
    unfold send
    rw [hok]
    rfl
  refine ⟨hsend, ?_, ?_, ?_⟩
  · intro status2 chunks2 rf2
    have hsend2 : send aid prev u ⟨r.ok, status2, r.hasBody, r.bodyText, chunks2, rf2⟩
        = catchH aid (initMsgs aid prev u) (badStatusMsg r.bodyText) := by
      unfold send
      rw [hok]
      rfl
    rw [hsend2, hsend]
  · intro j d hj hd hdn mm hmm hid
    have hmsgEq : badStatusMsg r.bodyText = d := by
      unfold badStatusMsg
      rw [hj]
      show jsDisplay (jsOrV (getField j (chars "detail"))
          (jsOrV (getField j (chars "error")) (Json.str (chars "Request failed")))) = d
      rw [hd, jsOrV_truthy_str d _ hdn, jsDisplay_str]
    rw [hsend, hmsgEq] at hmm
    exact catchH_content aid (initMsgs aid prev u) d mm hmm hid
  · intro j hj hd he mm hmm hid
    have hmsgEq : badStatusMsg r.bodyText = chars "Request failed" := by
      unfold badStatusMsg
      rw [hj]
      show jsDisplay (jsOrV (getField j (chars "detail"))
          (jsOrV (getField j (chars "error")) (Json.str (chars "Request failed"))))
        = chars "Request failed"
      rw [hd, he]
      rfl
    rw [hsend, hmsgEq] at hmm
    exact catchH_content aid (initMsgs aid prev u) (chars "Request failed") mm hmm hid

/-- Witness for the amended C5: status 500 with body `{"detail":"bad"}` —
the assistant message of the result carries exactly `Error: bad`. -/
theorem preStreamFail_C5_witness :
    (⟨some (chars "a1"), chars "assistant", chars "Error: bad"⟩ : Msg).content
      = chars "Error: " ++ chars "bad" :=
  (preStreamFail_C5_amended (chars "a1") [] (chars "hi")
      ⟨false, 500, true, chars "\x7b\"detail\":\"bad\"\x7d", [], none⟩ rfl).2.2.1
    (Json.obj [(chars "detail", Json.str (chars "bad"))]) (chars "bad") rfl rfl (by decide)
    ⟨some (chars "a1"), chars "assistant", chars "Error: bad"⟩ (by decide) rfl

/-- Witness for the amended C1: the `He`-token chunk followed by a transport
failure `boom` yields a final assistant content of exactly `Error: boom`. -/
theorem transportFail_C1_witness :
    send (chars "a1") [] (chars "hi")
        ⟨true, 200, true, [],
         [(chars "event: token\ndata: \x7b\"text\":\"He\"\x7d\n\n").map Char.toNat],
         some (chars "boom")⟩
      = catchH (chars "a1")
          [⟨none, chars "user", chars "hi"⟩,
           ⟨some (chars "a1"), chars "assistant", chars "He"⟩] (chars "boom") :=
  (transportFail_C1_amended (chars "a1") [] (chars "hi") [] 200
    [(chars "event: token\ndata: \x7b\"text\":\"He\"\x7d\n\n").map Char.toNat]
    (chars "boom")
    ⟨[⟨none, chars "user", chars "hi"⟩,
      ⟨some (chars "a1"), chars "assistant", chars "He"⟩], decInit, []⟩ rfl).1

end Mnemos
